import Mathlib

/-!
Verification of the FastAPI-CRUD student service (`src/main.py`).

The service stores student records (`Alumno`) in a single SQLite table and
exposes five handlers: `crear_alumno` (POST), `leer_alumno` (GET one),
`leer_alumnos` (GET list filtered by `activo`), `actualizar_alumno` (PUT)
and `eliminar_alumno` (DELETE).

Shallow embedding: the database table is a `List Alumno` (rows in storage
order); a SQLAlchemy query `db.query(Alumno).filter(Alumno.id == i).first()`
is `List.find?` on that list; the store-generated primary key of an insert
is max-rowid-plus-one (SQLite `INTEGER PRIMARY KEY` assignment), here
`freshId`.  `HTTPException(status_code=404, detail=...)` becomes the
`.error` branch of an `Except`.  Handlers that mutate return the new table
alongside the response.
-/

/-- A row of the `alumnos` table (`class Alumno(Base)` in `src/main.py`):
`id` primary key, `nombre`, `semestre`, `activo`. -/
structure Alumno where
  id : Int
  nombre : String
  semestre : Int
  activo : Bool
deriving DecidableEq, Repr

/-- Request body for create and update (`class AlumnoCreate(BaseModel)`):
`nombre : str`, `semestre : int`, `activo : bool = True`.  There is no
`id` field: the client can never supply one. -/
structure AlumnoCreate where
  nombre : String
  semestre : Int
  activo : Bool := true
deriving DecidableEq, Repr

/-- An `HTTPException` as raised by the handlers: status code and detail. -/
structure HTTPError where
  statusCode : Nat
  detail : String
deriving DecidableEq, Repr

/-- The one error the handlers raise:
`HTTPException(status_code=404, detail="Alumno no encontrado")`. -/
def notFound : HTTPError := ⟨404, "Alumno no encontrado"⟩

/-- The delete handler's confirmation payload `{"detail": "Alumno eliminado"}`. -/
structure Confirmacion where
  detail : String
deriving DecidableEq, Repr

/-- The predicate of the query `filter(Alumno.id == alumno_id)`. -/
def matchesId (alumno_id : Int) (r : Alumno) : Bool :=
  r.id == alumno_id

/-- SQLite's primary-key assignment for `INTEGER PRIMARY KEY`: one more than
the largest rowid currently in the table (1 on an empty table). -/
def freshId (db : List Alumno) : Int :=
  (db.foldr (fun r m => max r.id m) 0) + 1

/-- `crear_alumno`: build a row from the input (the store assigns the id),
insert and commit, and return the refreshed row.  Returns the response
together with the table after the insert. -/
def crear_alumno (alumno : AlumnoCreate) (db : List Alumno) :
    Alumno × List Alumno :=
  let db_alumno : Alumno :=
    ⟨freshId db, alumno.nombre, alumno.semestre, alumno.activo⟩
  (db_alumno, db ++ [db_alumno])

/-- `leer_alumno`: `first()` row with the requested id, 404 if none.
Reads do not change the table, so only the response is returned. -/
def leer_alumno (alumno_id : Int) (db : List Alumno) :
    Except HTTPError Alumno :=
  match db.find? (matchesId alumno_id) with
  | some alumno => .ok alumno
  | none => .error notFound

/-- `leer_alumnos`: all rows whose `activo` equals the query parameter,
which defaults to `true`. -/
def leer_alumnos (db : List Alumno) (activo : Bool := true) : List Alumno :=
  db.filter (fun r => r.activo == activo)

/-- Overwriting the three mutable fields of a fetched row with the request
body, as the three assignments in `actualizar_alumno` do. -/
def setFields (r : Alumno) (alumno : AlumnoCreate) : Alumno :=
  { r with nombre := alumno.nombre, semestre := alumno.semestre,
           activo := alumno.activo }

/-- Replace the first row satisfying `p` by its image under `f`: the effect
on the table of mutating the ORM object returned by `first()` and
committing. -/
def replaceFirst (p : Alumno → Bool) (f : Alumno → Alumno) :
    List Alumno → List Alumno
  | [] => []
  | r :: rs => if p r then f r :: rs else r :: replaceFirst p f rs

/-- Remove the first row satisfying `p`: the effect of `db.delete(alumno)`
on the row returned by `first()`. -/
def removeFirst (p : Alumno → Bool) : List Alumno → List Alumno
  | [] => []
  | r :: rs => if p r then rs else r :: removeFirst p rs

/-- `actualizar_alumno`: `first()` row with the requested id; 404 if none,
otherwise overwrite `nombre`, `semestre`, `activo` with the request body,
commit, and return the refreshed row. -/
def actualizar_alumno (alumno_id : Int) (alumno : AlumnoCreate)
    (db : List Alumno) : Except HTTPError Alumno × List Alumno :=
  match db.find? (matchesId alumno_id) with
  | none => (.error notFound, db)
  | some db_alumno =>
      (.ok (setFields db_alumno alumno),
       replaceFirst (matchesId alumno_id) (fun r => setFields r alumno) db)

/-- `eliminar_alumno`: `first()` row with the requested id; 404 if none,
otherwise delete it, commit, and return the confirmation payload. -/
def eliminar_alumno (alumno_id : Int) (db : List Alumno) :
    Except HTTPError Confirmacion × List Alumno :=
  match db.find? (matchesId alumno_id) with
  | none => (.error notFound, db)
  | some _ => (.ok ⟨"Alumno eliminado"⟩, removeFirst (matchesId alumno_id) db)

/-- Well-formedness of the table: the primary-key column holds no
duplicates (the `id` column is `primary_key=True`). -/
def WF (db : List Alumno) : Prop :=
  (db.map Alumno.id).Nodup

instance : DecidablePred WF := fun db =>
  inferInstanceAs (Decidable (db.map Alumno.id).Nodup)

/-! ### Helper lemmas about the embedded storage operations -/

/-- Every row's id is bounded by the fold computing the current maximum. -/
lemma id_le_foldr_max {r : Alumno} {db : List Alumno} (h : r ∈ db) :
    r.id ≤ db.foldr (fun r m => max r.id m) 0 := by
  induction db with
  | nil => cases h
  | cons x xs ih =>
      rcases List.mem_cons.mp h with rfl | hmem
      · exact le_max_left _ _
      · exact le_trans (ih hmem) (le_max_right _ _)

/-- The store-generated id is strictly larger than every id in the table. -/
lemma id_lt_freshId {r : Alumno} {db : List Alumno} (h : r ∈ db) :
    r.id < freshId db :=
  lt_of_le_of_lt (id_le_foldr_max h) (by simp [freshId])

/-- No existing row matches the freshly generated id. -/
lemma find?_matchesId_freshId (db : List Alumno) :
    db.find? (matchesId (freshId db)) = none := by
  rw [List.find?_eq_none]
  intro r hr hmatch
  exact absurd (eq_of_beq hmatch) (ne_of_lt (id_lt_freshId hr))

/-- In a well-formed table, `first()` on an id filter returns exactly the
member row carrying that id. -/
lemma find?_matchesId_of_mem {db : List Alumno} {a : Alumno}
    (hwf : WF db) (hmem : a ∈ db) (hid : a.id = i) :
    db.find? (matchesId i) = some a := by
  induction db with
  | nil => cases hmem
  | cons x xs ih =>
      rcases List.mem_cons.mp hmem with rfl | hmem'
      · exact List.find?_cons_of_pos _ (by simp [matchesId, hid])
      · have hxs : x.id ≠ i := by
          intro hx
          have : a.id ∈ xs.map Alumno.id := List.mem_map_of_mem _ hmem'
          rw [hid, ← hx] at this
          exact (List.nodup_cons.mp hwf).1 this
        rw [List.find?_cons_of_neg _ (by simp [matchesId, hxs])]
        exact ih ((List.nodup_cons.mp hwf).2) hmem'

/-- If `first()` found a row and `f` keeps the predicate true, then after
replacing that row `first()` finds its image. -/
lemma find?_replaceFirst {p : Alumno → Bool} {f : Alumno → Alumno}
    {db : List Alumno} {a : Alumno} (hfind : db.find? p = some a)
    (hpres : ∀ r, p r = true → p (f r) = true) :
    (replaceFirst p f db).find? p = some (f a) := by
  induction db with
  | nil => cases hfind
  | cons x xs ih =>
      by_cases hx : p x = true
      · rw [List.find?_cons_of_pos _ hx] at hfind
        cases hfind
        rw [replaceFirst, if_pos hx]
        exact List.find?_cons_of_pos _ (hpres _ hx)
      · rw [List.find?_cons_of_neg _ hx] at hfind
        rw [replaceFirst, if_neg hx, List.find?_cons_of_neg _ hx]
        exact ih hfind

/-- Rows not matching the predicate survive `replaceFirst` untouched. -/
lemma mem_replaceFirst_of_not {p : Alumno → Bool} {f : Alumno → Alumno}
    {db : List Alumno} {r : Alumno} (hmem : r ∈ db) (hp : ¬ p r = true) :
    r ∈ replaceFirst p f db := by
  induction db with
  | nil => cases hmem
  | cons x xs ih =>
      rcases List.mem_cons.mp hmem with rfl | hmem'
      · rw [replaceFirst, if_neg hp]
        exact List.mem_cons_self _ _
      · by_cases hx : p x = true
        · rw [replaceFirst, if_pos hx]
          exact List.mem_cons_of_mem _ hmem'
        · rw [replaceFirst, if_neg hx]
          exact List.mem_cons_of_mem _ (ih hmem')

/-- `replaceFirst` with an id-preserving mutation leaves the id column
unchanged. -/
lemma map_id_replaceFirst {p : Alumno → Bool} {f : Alumno → Alumno}
    (hf : ∀ r, (f r).id = r.id) (db : List Alumno) :
    (replaceFirst p f db).map Alumno.id = db.map Alumno.id := by
  induction db with
  | nil => rfl
  | cons x xs ih =>
      by_cases hx : p x = true
      · rw [replaceFirst, if_pos hx]
        simp [hf]
      · rw [replaceFirst, if_neg hx]
        simp [ih]

/-- `removeFirst` yields a sublist of the table. -/
lemma removeFirst_sublist (p : Alumno → Bool) (db : List Alumno) :
    (removeFirst p db).Sublist db := by
  induction db with
  | nil => exact List.Sublist.refl _
  | cons x xs ih =>
      by_cases hx : p x = true
      · rw [removeFirst, if_pos hx]
        exact List.sublist_cons_self _ _
      · rw [removeFirst, if_neg hx]
        exact List.Sublist.cons₂ _ ih

/-- Rows not matching the predicate survive `removeFirst`. -/
lemma mem_removeFirst_of_not {p : Alumno → Bool} {db : List Alumno}
    {r : Alumno} (hmem : r ∈ db) (hp : ¬ p r = true) :
    r ∈ removeFirst p db := by
  induction db with
  | nil => cases hmem
  | cons x xs ih =>
      rcases List.mem_cons.mp hmem with rfl | hmem'
      · rw [removeFirst, if_neg hp]
        exact List.mem_cons_self _ _
      · by_cases hx : p x = true
        · rw [removeFirst, if_pos hx]
          exact hmem'
        · rw [removeFirst, if_neg hx]
          exact List.mem_cons_of_mem _ (ih hmem')

/-- In a well-formed table, deleting the row found for an id leaves no
other row with that id. -/
lemma find?_removeFirst_none {db : List Alumno} {i : Int} {a : Alumno}
    (hwf : WF db) (hfind : db.find? (matchesId i) = some a) :
    (removeFirst (matchesId i) db).find? (matchesId i) = none := by
  induction db with
  | nil => cases hfind
  | cons x xs ih =>
      by_cases hx : matchesId i x = true
      · rw [removeFirst, if_pos hx, List.find?_eq_none]
        intro r hr hmatch
        have hxid : x.id = i := eq_of_beq hx
        have hrid : r.id = i := eq_of_beq hmatch
        have : r.id ∈ xs.map Alumno.id := List.mem_map_of_mem _ hr
        rw [hrid, ← hxid] at this
        exact (List.nodup_cons.mp hwf).1 this
      · rw [List.find?_cons_of_neg _ hx] at hfind
        rw [removeFirst, if_neg hx, List.find?_cons_of_neg _ hx]
        exact ih ((List.nodup_cons.mp hwf).2) hfind

/-! ### Claim theorems -/

/-- C1: Round-trip law: for every table state and create input, performing
`crear_alumno` and then `leer_alumno` on the id the create returned yields
exactly the record create returned (same id, nombre, semestre, activo). -/
theorem C1_create_get_roundtrip (db : List Alumno) (inp : AlumnoCreate) :
    leer_alumno (crear_alumno inp db).1.id (crear_alumno inp db).2 =
      Except.ok (crear_alumno inp db).1 := by
  have h1 := find?_matchesId_freshId db
  simp [crear_alumno, leer_alumno, List.find?_append, h1, matchesId]

/-- C2: updating an id with no matching row yields the 404 not-found error
and returns the table unchanged: in particular no record is created. -/
theorem C2_update_missing_id (db : List Alumno) (i : Int) (inp : AlumnoCreate)
    (habs : ∀ r ∈ db, r.id ≠ i) :
    actualizar_alumno i inp db = (Except.error notFound, db) := by
  have hnone : db.find? (matchesId i) = none := by
    rw [List.find?_eq_none]
    intro r hr hm
    exact habs r hr (eq_of_beq hm)
  simp [actualizar_alumno, hnone]

theorem C2_update_missing_id_witness :
    actualizar_alumno 7 ⟨"Ana", 3, true⟩ [⟨1, "Bob", 2, true⟩] =
      (Except.error notFound, [⟨1, "Bob", 2, true⟩]) :=
  C2_update_missing_id [⟨1, "Bob", 2, true⟩] 7 ⟨"Ana", 3, true⟩ (by decide)

/-- C4: the list handler returns exactly the rows whose `activo` equals the
filter (membership characterisation), returns `[]` (never an error) when no
row matches, and the filter defaults to `true` when omitted. -/
theorem C4_list_filter_exact (db : List Alumno) (b : Bool) :
    (∀ r, r ∈ leer_alumnos db b ↔ r ∈ db ∧ r.activo = b) ∧
    ((∀ r ∈ db, r.activo ≠ b) → leer_alumnos db b = []) ∧
    leer_alumnos db = leer_alumnos db true := by
  refine ⟨fun r => ?_, fun h => ?_, rfl⟩
  · simp [leer_alumnos, List.mem_filter]
  · rw [leer_alumnos, List.filter_eq_nil_iff]
    intro r hr
    simpa using h r hr

theorem C4_list_filter_exact_witness :
    leer_alumnos [⟨1, "Ana", 3, true⟩] false = [] :=
  (C4_list_filter_exact [⟨1, "Ana", 3, true⟩] false).2.1 (by decide)

/-- C5: creating from an input that omits `activo` (so the Pydantic default
`true` applies) persists a row with `activo = true`, carries the input's
`nombre` and `semestre` verbatim, assigns the store-generated id, and
appends exactly that full record to the table.  (The input schema
`AlumnoCreate` has no `id` field, so the client can never supply one.) -/
theorem C5_create_default_active (db : List Alumno) (n : String) (s : Int) :
    (crear_alumno { nombre := n, semestre := s } db).1.activo = true ∧
    (crear_alumno { nombre := n, semestre := s } db).1.nombre = n ∧
    (crear_alumno { nombre := n, semestre := s } db).1.semestre = s ∧
    (crear_alumno { nombre := n, semestre := s } db).1.id = freshId db ∧
    (crear_alumno { nombre := n, semestre := s } db).2 =
      db ++ [(crear_alumno { nombre := n, semestre := s } db).1] :=
  ⟨rfl, rfl, rfl, rfl, rfl⟩

/-- C7: the get-one handler returns the stored row unchanged when a row
with the requested id exists (in a well-formed table), and fails with the
404 not-found error when none does.  It takes the table only as input and
returns only a response, so it has no effect on the store. -/
theorem C7_get_found_or_404 (db : List Alumno) (i : Int) :
    ((∀ r ∈ db, r.id ≠ i) → leer_alumno i db = Except.error notFound) ∧
    (∀ a, WF db → a ∈ db → a.id = i → leer_alumno i db = Except.ok a) := by
  constructor
  · intro habs
    have hnone : db.find? (matchesId i) = none := by
      rw [List.find?_eq_none]
      intro r hr hm
      exact habs r hr (eq_of_beq hm)
    simp [leer_alumno, hnone]
  · intro a hwf hmem hid
    simp [leer_alumno, find?_matchesId_of_mem hwf hmem hid]

theorem C7_get_found_or_404_witness :
    leer_alumno 9 [⟨1, "Ana", 3, true⟩] = Except.error notFound ∧
    leer_alumno 1 [⟨1, "Ana", 3, true⟩] = Except.ok ⟨1, "Ana", 3, true⟩ :=
  ⟨(C7_get_found_or_404 [⟨1, "Ana", 3, true⟩] 9).1 (by decide),
   (C7_get_found_or_404 [⟨1, "Ana", 3, true⟩] 1).2 ⟨1, "Ana", 3, true⟩
     (by decide) (by decide) rfl⟩

/-- C10: no value-range validation beyond shape: create persists every
well-typed input verbatim (any `nombre` including `""`, any `semestre`
including zero or negatives, any `activo`) and never returns an error;
whenever update succeeds, the returned record carries the input's three
field values verbatim. -/
theorem C10_no_range_validation (db : List Alumno) (inp : AlumnoCreate)
    (i : Int) :
    ((crear_alumno inp db).1.nombre = inp.nombre ∧
     (crear_alumno inp db).1.semestre = inp.semestre ∧
     (crear_alumno inp db).1.activo = inp.activo) ∧
    (∀ rec, (actualizar_alumno i inp db).1 = Except.ok rec →
      rec.nombre = inp.nombre ∧ rec.semestre = inp.semestre ∧
      rec.activo = inp.activo) := by
  refine ⟨⟨rfl, rfl, rfl⟩, fun rec hrec => ?_⟩
  unfold actualizar_alumno at hrec
  cases hfind : db.find? (matchesId i) with
  | none => rw [hfind] at hrec; cases hrec
  | some a =>
      rw [hfind] at hrec
      cases hrec
      exact ⟨rfl, rfl, rfl⟩

theorem C10_no_range_validation_witness :
    (Alumno.mk 1 "" (-5) false).nombre = "" ∧
    (Alumno.mk 1 "" (-5) false).semestre = -5 ∧
    (Alumno.mk 1 "" (-5) false).activo = false :=
  (C10_no_range_validation [⟨1, "Bob", 2, true⟩] ⟨"", -5, false⟩ 1).2
    ⟨1, "", -5, false⟩ rfl

/-- The update handler never changes the id column of the table. -/
lemma actualizar_map_id (i : Int) (inp : AlumnoCreate) (db : List Alumno) :
    ((actualizar_alumno i inp db).2.map Alumno.id) = db.map Alumno.id := by
  cases hfind : db.find? (matchesId i) with
  | none => simp [actualizar_alumno, hfind]
  | some a =>
      simp only [actualizar_alumno, hfind]
      exact map_id_replaceFirst
        (fun r => (rfl : (setFields r inp).id = r.id)) db

/-- The delete handler's resulting table is a sublist of the original. -/
lemma eliminar_sublist (i : Int) (db : List Alumno) :
    ((eliminar_alumno i db).2).Sublist db := by
  unfold eliminar_alumno
  cases hfind : db.find? (matchesId i) with
  | none => exact List.Sublist.refl _
  | some a => exact removeFirst_sublist _ _

/-- C3: deleting an existing id succeeds with the confirmation payload and
removes the record: a subsequent get on that id fails with 404, and a
second delete on the same id also fails with 404 and leaves the table from
the first delete unchanged (idempotent end state). -/
theorem C3_delete_then_gone (db : List Alumno) (i : Int) (a : Alumno)
    (hwf : WF db) (hmem : a ∈ db) (hid : a.id = i) :
    (eliminar_alumno i db).1 = Except.ok ⟨"Alumno eliminado"⟩ ∧
    leer_alumno i (eliminar_alumno i db).2 = Except.error notFound ∧
    eliminar_alumno i (eliminar_alumno i db).2 =
      (Except.error notFound, (eliminar_alumno i db).2) := by
  have hfind := find?_matchesId_of_mem hwf hmem hid
  have hnone := find?_removeFirst_none hwf hfind
  refine ⟨?_, ?_, ?_⟩ <;>
    simp [eliminar_alumno, leer_alumno, hfind, hnone]

theorem C3_delete_then_gone_witness :
    (eliminar_alumno 1 [⟨1, "Ana", 3, true⟩]).1 =
      Except.ok ⟨"Alumno eliminado"⟩ ∧
    leer_alumno 1 (eliminar_alumno 1 [⟨1, "Ana", 3, true⟩]).2 =
      Except.error notFound ∧
    eliminar_alumno 1 (eliminar_alumno 1 [⟨1, "Ana", 3, true⟩]).2 =
      (Except.error notFound, (eliminar_alumno 1 [⟨1, "Ana", 3, true⟩]).2) :=
  C3_delete_then_gone [⟨1, "Ana", 3, true⟩] 1 ⟨1, "Ana", 3, true⟩
    (by decide) (by decide) rfl

/-- C6: updating an existing record (in a well-formed table) overwrites
exactly the three mutable fields with the supplied values and returns the
record with its identifier unchanged; a subsequent get on that id returns
the new values, not the old ones. -/
theorem C6_update_overwrites (db : List Alumno) (i : Int)
    (inp : AlumnoCreate) (a : Alumno)
    (hwf : WF db) (hmem : a ∈ db) (hid : a.id = i) :
    (actualizar_alumno i inp db).1 =
      Except.ok ⟨i, inp.nombre, inp.semestre, inp.activo⟩ ∧
    leer_alumno i (actualizar_alumno i inp db).2 =
      Except.ok ⟨i, inp.nombre, inp.semestre, inp.activo⟩ := by
  have hfind := find?_matchesId_of_mem hwf hmem hid
  have hpres : ∀ r, matchesId i r = true →
      matchesId i (setFields r inp) = true := fun r hr => hr
  have hrep := find?_replaceFirst hfind hpres
  have hset : setFields a inp = ⟨i, inp.nombre, inp.semestre, inp.activo⟩ := by
    simp [setFields, ← hid]
  constructor
  · simp [actualizar_alumno, hfind, hset]
  · simp [actualizar_alumno, leer_alumno, hfind, hrep, hset]

theorem C6_update_overwrites_witness :
    (actualizar_alumno 1 ⟨"Eva", 7, false⟩ [⟨1, "Ana", 3, true⟩]).1 =
      Except.ok ⟨1, "Eva", 7, false⟩ ∧
    leer_alumno 1 (actualizar_alumno 1 ⟨"Eva", 7, false⟩
        [⟨1, "Ana", 3, true⟩]).2 =
      Except.ok ⟨1, "Eva", 7, false⟩ :=
  C6_update_overwrites [⟨1, "Ana", 3, true⟩] 1 ⟨"Eva", 7, false⟩
    ⟨1, "Ana", 3, true⟩ (by decide) (by decide) rfl

/-- C8: the store invariants hold across every operation on a well-formed
table: ids stay pairwise distinct after create, update and delete; update
never changes the id column (ids are immutable once assigned); the created
record is present after create commits; every pre-existing record is still
present after a create; and a record is only removed by a delete naming its
own id.  (Get and list take the table only as input, so they cannot change
it.) -/
theorem C8_store_invariants (db : List Alumno) (inp upd : AlumnoCreate)
    (i : Int) (hwf : WF db) :
    WF (crear_alumno inp db).2 ∧
    WF (actualizar_alumno i upd db).2 ∧
    WF (eliminar_alumno i db).2 ∧
    (actualizar_alumno i upd db).2.map Alumno.id = db.map Alumno.id ∧
    (crear_alumno inp db).1 ∈ (crear_alumno inp db).2 ∧
    (∀ r ∈ db, r ∈ (crear_alumno inp db).2) ∧
    (∀ r ∈ db, r.id ≠ i → r ∈ (eliminar_alumno i db).2) := by
  have hmapupd := actualizar_map_id i upd db
  refine ⟨?_, ?_, ?_, hmapupd, ?_, fun r hr => ?_, fun r hr hne => ?_⟩
  · have hnotmem : freshId db ∉ db.map Alumno.id := by
      intro hmem
      rcases List.mem_map.mp hmem with ⟨r, hr, hrid⟩
      exact absurd hrid (ne_of_lt (id_lt_freshId hr))
    simpa [crear_alumno, WF, List.nodup_append] using And.intro hwf hnotmem
  · rw [WF, hmapupd]
    exact hwf
  · exact List.Sublist.nodup ((eliminar_sublist i db).map Alumno.id) hwf
  · simp [crear_alumno]
  · exact List.mem_append_left _ hr
  · unfold eliminar_alumno
    cases hfind : db.find? (matchesId i) with
    | none => exact hr
    | some a =>
        exact mem_removeFirst_of_not hr (by simp [matchesId, hne])

theorem C8_store_invariants_witness :
    WF (crear_alumno ⟨"Ana", 3, true⟩ [⟨1, "Bob", 2, true⟩]).2 ∧
    WF (actualizar_alumno 2 ⟨"Eva", 7, false⟩ [⟨1, "Bob", 2, true⟩]).2 ∧
    WF (eliminar_alumno 2 [⟨1, "Bob", 2, true⟩]).2 ∧
    (actualizar_alumno 2 ⟨"Eva", 7, false⟩ [⟨1, "Bob", 2, true⟩]).2.map
      Alumno.id = [⟨1, "Bob", 2, true⟩].map Alumno.id ∧
    (crear_alumno ⟨"Ana", 3, true⟩ [⟨1, "Bob", 2, true⟩]).1 ∈
      (crear_alumno ⟨"Ana", 3, true⟩ [⟨1, "Bob", 2, true⟩]).2 ∧
    (∀ r ∈ [⟨1, "Bob", 2, true⟩],
      r ∈ (crear_alumno ⟨"Ana", 3, true⟩ [⟨1, "Bob", 2, true⟩]).2) ∧
    (∀ r ∈ [⟨1, "Bob", 2, true⟩], r.id ≠ 2 →
      r ∈ (eliminar_alumno 2 [⟨1, "Bob", 2, true⟩]).2) :=
  C8_store_invariants [⟨1, "Bob", 2, true⟩] ⟨"Ana", 3, true⟩
    ⟨"Eva", 7, false⟩ 2 (by decide)

/-- C9: frame property of the mutating handlers, with no well-formedness
assumption: create appends its new row and leaves every pre-existing row in
place unchanged; update and delete leave every row whose id differs from
the path parameter present and byte-for-byte unchanged. -/
theorem C9_mutations_frame (db : List Alumno) (inp upd : AlumnoCreate)
    (i : Int) :
    (crear_alumno inp db).2 = db ++ [(crear_alumno inp db).1] ∧
    (∀ r ∈ db, r.id ≠ i → r ∈ (actualizar_alumno i upd db).2) ∧
    (∀ r ∈ db, r.id ≠ i → r ∈ (eliminar_alumno i db).2) := by
  refine ⟨rfl, fun r hr hne => ?_, fun r hr hne => ?_⟩
  · unfold actualizar_alumno
    cases hfind : db.find? (matchesId i) with
    | none => exact hr
    | some a =>
        exact mem_replaceFirst_of_not hr (by simp [matchesId, hne])
  · unfold eliminar_alumno
    cases hfind : db.find? (matchesId i) with
    | none => exact hr
    | some a =>
        exact mem_removeFirst_of_not hr (by simp [matchesId, hne])

theorem C9_mutations_frame_witness :
    (crear_alumno ⟨"Ana", 3, true⟩ [⟨1, "Bob", 2, true⟩]).2 =
      [⟨1, "Bob", 2, true⟩] ++
        [(crear_alumno ⟨"Ana", 3, true⟩ [⟨1, "Bob", 2, true⟩]).1] ∧
    Alumno.mk 1 "Bob" 2 true ∈
      (actualizar_alumno 2 ⟨"Eva", 7, false⟩ [⟨1, "Bob", 2, true⟩]).2 ∧
    Alumno.mk 1 "Bob" 2 true ∈ (eliminar_alumno 2 [⟨1, "Bob", 2, true⟩]).2 :=
  ⟨(C9_mutations_frame [⟨1, "Bob", 2, true⟩] ⟨"Ana", 3, true⟩
      ⟨"Eva", 7, false⟩ 2).1,
   (C9_mutations_frame [⟨1, "Bob", 2, true⟩] ⟨"Ana", 3, true⟩
      ⟨"Eva", 7, false⟩ 2).2.1 ⟨1, "Bob", 2, true⟩ (by decide) (by decide),
   (C9_mutations_frame [⟨1, "Bob", 2, true⟩] ⟨"Ana", 3, true⟩
      ⟨"Eva", 7, false⟩ 2).2.2 ⟨1, "Bob", 2, true⟩ (by decide) (by decide)⟩
